import Mathlib

/-!
Verification of the voice-session core of `src/App.tsx`.

We shallowly embed the stateful event handlers of the `App` component:
`stopConversation`, the live-session callbacks `onmessage` and `onerror`,
the capture callback `scriptProcessor.onaudioprocess`, and the playback
scheduling arithmetic on `nextStartTimeRef`.  Machine floats are modelled
by rationals (the JS doubles involved here are exact on the small test
values), the JS `Int16Array` element conversion (ECMAScript ToInt16) is
modelled exactly, and each asynchronous callback is modelled as a pure
state-transition function, reflecting the single-threaded event dispatch
of the browser runtime.
-/

/-- Mirror of `ConnectionStatus` in `types.ts`. -/
inductive ConnectionStatus where
  | DISCONNECTED
  | CONNECTING
  | CONNECTED
  | ERROR
deriving DecidableEq, Repr

/-- Transcript speaker roles, as in `types.ts` (`'user' | 'gemini'`). -/
inductive Role where
  | user
  | gemini
deriving DecidableEq, Repr

/-- Mirror of `TranscriptEntry` in `types.ts`; `timestamp` is `Date.now()`. -/
structure TranscriptEntry where
  role : Role
  text : String
  timestamp : ℕ
deriving DecidableEq, Repr

/-- The fields of a `LiveServerMessage` that `onmessage` in `src/App.tsx`
inspects: `serverContent.outputTranscription`, `serverContent.inputTranscription`,
`serverContent.turnComplete`, `serverContent.modelTurn.parts[0].inlineData.data`
(modelled by the duration of the decoded audio buffer) and
`serverContent.interrupted`. -/
structure LiveServerMessage where
  outputTranscription : Option String
  inputTranscription : Option String
  turnComplete : Bool
  audioDuration : Option ℚ
  interrupted : Bool
deriving DecidableEq, Repr

/-- The mutable state captured by the `App` component: the React state
(`status`, `history`, `isGeminiSpeaking`, `isUserSpeaking`) and the refs
(`nextStartTimeRef`, `activeSourcesRef`, `sessionRef`, `streamRef`,
`currentInputTransRef`, `currentOutputTransRef`).  An active audio source
is recorded as its (start time, duration) pair on the output clock.
`stoppedSources` is a ghost log recording every source on which
`source.stop()` was forcibly called, used to state that interruption and
teardown really stop every active source. -/
structure AppState where
  status : ConnectionStatus
  history : List TranscriptEntry
  isGeminiSpeaking : Bool
  isUserSpeaking : Bool
  nextStartTime : ℚ
  activeSources : List (ℚ × ℚ)
  stoppedSources : List (ℚ × ℚ)
  session : Option Unit
  stream : Option Unit
  inputTrans : String
  outputTrans : String
deriving DecidableEq, Repr

/-- The initial component state: `DISCONNECTED`, empty history, flags off,
`nextStartTimeRef.current = 0`, no sources, no session, no stream, empty
transcription accumulators. -/
def initState : AppState :=
  { status := ConnectionStatus.DISCONNECTED
    history := []
    isGeminiSpeaking := false
    isUserSpeaking := false
    nextStartTime := 0
    activeSources := []
    stoppedSources := []
    session := none
    stream := none
    inputTrans := ""
    outputTrans := "" }

/-- Resource-release effects emitted by `stopConversation`:
`sessionRef.current.close()`, stopping every `MediaStream` track, and
`source.stop()` on an active audio source. -/
inductive FxAction where
  | closeSession
  | releaseStream
  | stopSource (src : ℚ × ℚ)
deriving DecidableEq, Repr

/-- `stopConversation` (src/App.tsx lines 34-51): close the session if one
is open and null the ref, stop all tracks of the stream if one is held and
null the ref, force-stop every active audio source and clear the set, then
set status `DISCONNECTED` and both speaking flags to `false`.  Returns the
new state together with the list of release effects performed, in order. -/
def stopConversation (s : AppState) : AppState × List FxAction :=
  let p1 : AppState × List FxAction :=
    match s.session with
    | some _ => ({ s with session := none }, [FxAction.closeSession])
    | none => (s, [])
  let p2 : AppState × List FxAction :=
    match p1.1.stream with
    | some _ => ({ p1.1 with stream := none }, p1.2 ++ [FxAction.releaseStream])
    | none => (p1.1, p1.2)
  let s2 := p2.1
  (({ s2 with
      stoppedSources := s2.stoppedSources ++ s2.activeSources
      activeSources := []
      status := ConnectionStatus.DISCONNECTED
      isUserSpeaking := false
      isGeminiSpeaking := false }),
   p2.2 ++ s2.activeSources.map FxAction.stopSource)

/-- `onerror` (src/App.tsx lines 146-150): log the error, set status
`ERROR`, then call `stopConversation()`. -/
def onerror (s : AppState) : AppState × List FxAction :=
  stopConversation { s with status := ConnectionStatus.ERROR }

/-- The playback scheduling arithmetic of the audio branch of `onmessage`
(src/App.tsx lines 122, 134-135): the chunk starts at
`max nextStartTime now` and the new `nextStartTime` is that start plus the
chunk's duration.  Returns `(start, new nextStartTime)`. -/
def scheduleChunk (now dur next : ℚ) : ℚ × ℚ :=
  let start := max next now
  (start, start + dur)

/-- First block of `onmessage` (lines 98-102): an exclusive if/else-if that
appends an output-transcription delta to `currentOutputTransRef`, and only
otherwise appends an input-transcription delta to `currentInputTransRef`. -/
def transcriptionStep (m : LiveServerMessage) (s : AppState) : AppState :=
  match m.outputTranscription with
  | some t => { s with outputTrans := s.outputTrans ++ t }
  | none =>
    match m.inputTranscription with
    | some t => { s with inputTrans := s.inputTrans ++ t }
    | none => s

/-- Second block of `onmessage` (lines 104-116): on `turnComplete`, append
a user entry (if the user accumulator is non-empty, JS truthiness of the
string) then a gemini entry (if the model accumulator is non-empty) to
`history`, and reset both accumulators unconditionally. -/
def turnCompleteStep (wallNow : ℕ) (m : LiveServerMessage) (s : AppState) :
    AppState :=
  if m.turnComplete then
    let uText := s.inputTrans
    let gText := s.outputTrans
    let s1 :=
      if uText ≠ "" ∨ gText ≠ "" then
        { s with history := s.history ++
            ((if uText ≠ "" then [⟨Role.user, uText, wallNow⟩] else []) ++
             (if gText ≠ "" then [⟨Role.gemini, gText, wallNow⟩] else [])) }
      else s
    { s1 with inputTrans := "", outputTrans := "" }
  else s

/-- Third block of `onmessage` (lines 118-137): if the message carries
inline audio, set `isGeminiSpeaking`, schedule the decoded buffer via
`scheduleChunk` at the current output-clock time `now`, record the source
as active, and advance `nextStartTime`. -/
def audioStep (now : ℚ) (m : LiveServerMessage) (s : AppState) : AppState :=
  match m.audioDuration with
  | none => s
  | some dur =>
    let p := scheduleChunk now dur s.nextStartTime
    { s with
        isGeminiSpeaking := true
        nextStartTime := p.2
        activeSources := s.activeSources ++ [(p.1, dur)] }

/-- Fourth block of `onmessage` (lines 139-144): on `interrupted`, call
`stop()` on every active source, clear the set, reset `nextStartTime` to
`0`, and set `isGeminiSpeaking` to `false`. -/
def interruptStep (m : LiveServerMessage) (s : AppState) : AppState :=
  if m.interrupted then
    { s with
        stoppedSources := s.stoppedSources ++ s.activeSources
        activeSources := []
        nextStartTime := 0
        isGeminiSpeaking := false }
  else s

/-- `onmessage` (src/App.tsx lines 97-145): the four blocks in program
order.  `wallNow` is `Date.now()` and `audioNow` is
`outputAudioContext.currentTime` at the time the handler runs. -/
def onmessage (wallNow : ℕ) (audioNow : ℚ) (m : LiveServerMessage)
    (s : AppState) : AppState :=
  interruptStep m (audioStep audioNow m (turnCompleteStep wallNow m
    (transcriptionStep m s)))

/-- Fold `onmessage` over a list of messages delivered at the same clock
readings. -/
def runMessages (wallNow : ℕ) (audioNow : ℚ) (msgs : List LiveServerMessage)
    (s : AppState) : AppState :=
  msgs.foldl (fun st m => onmessage wallNow audioNow m st) s

/-- A message carrying only an output-transcription delta. -/
def msgOutputDelta (t : String) : LiveServerMessage :=
  ⟨some t, none, false, none, false⟩

/-- A message carrying only an input-transcription delta. -/
def msgInputDelta (t : String) : LiveServerMessage :=
  ⟨none, some t, false, none, false⟩

/-- A message carrying only the turn-complete marker. -/
def msgTurnComplete : LiveServerMessage :=
  ⟨none, none, true, none, false⟩

/-- A message carrying only an inline audio chunk of the given duration. -/
def msgAudio (dur : ℚ) : LiveServerMessage :=
  ⟨none, none, false, some dur, false⟩

/-- A message carrying only the interrupted marker. -/
def msgInterrupted : LiveServerMessage :=
  ⟨none, none, false, none, true⟩

/-- The transcript-delta message for a `(role, text)` fragment. -/
def deltaMsg : Role × String → LiveServerMessage
  | (Role.user, t) => msgInputDelta t
  | (Role.gemini, t) => msgOutputDelta t

/-- Concatenation, in delivery order, of the fragments of one role, on top
of an initial accumulator value. -/
def accumRole (r : Role) (ds : List (Role × String)) (init : String) :
    String :=
  ds.foldl (fun acc d => if d.1 = r then acc ++ d.2 else acc) init

/-- Repeated application of the audio branch of `onmessage` to a stream of
chunks, each given as `(arrival clock time, duration)`, starting from a
given `nextStartTime`.  Produces the list of `(scheduled start, duration)`
pairs in arrival order, each computed by `scheduleChunk` exactly as in
src/App.tsx lines 122 and 134-135. -/
def scheduleAll : ℚ → List (ℚ × ℚ) → List (ℚ × ℚ)
  | _, [] => []
  | next, c :: rest =>
    let p := scheduleChunk c.1 c.2 next
    (p.1, c.2) :: scheduleAll p.2 rest

/-- Back-to-back schedule: each chunk starts exactly when the previous one
ends, starting from time `t`.  Used to state the gapless property. -/
def backToBack : ℚ → List (ℚ × ℚ) → List (ℚ × ℚ)
  | _, [] => []
  | t, c :: rest => (t, c.2) :: backToBack (t + c.2) rest

/-- `keepsUp next chunks` holds when every chunk of the stream arrives no
later than the pending `nextStartTime` at the moment it is handled, i.e.
the stream never lets the output clock overtake the scheduled queue. -/
def keepsUp : ℚ → List (ℚ × ℚ) → Bool
  | _, [] => true
  | next, c :: rest => decide (c.1 ≤ next) && keepsUp (next + c.2) rest

/-- `keepsUpAfterFirst next chunks`: every chunk after the first arrives
before the already-scheduled audio runs out.  The first chunk of a burst is
unconstrained (it may start a fresh queue at the current clock time). -/
def keepsUpAfterFirst (next : ℚ) : List (ℚ × ℚ) → Bool
  | [] => true
  | c :: rest => keepsUp (max next c.1 + c.2) rest

/-- Truncation toward zero of a rational, as ECMAScript
`ToIntegerOrInfinity` does for a finite double. -/
def truncQ (q : ℚ) : ℤ :=
  if 0 ≤ q then ⌊q⌋ else -⌊-q⌋

/-- ECMAScript `ToInt16`, applied on every store into an `Int16Array`:
truncate toward zero, reduce modulo 2^16 into `[0, 65536)`, then map the
upper half down to negative values. -/
def toInt16 (q : ℚ) : ℤ :=
  let i := truncQ q
  let m := i % 65536
  if 32768 ≤ m then m - 65536 else m

/-- The float-to-PCM16 conversion of `scriptProcessor.onaudioprocess`
(src/App.tsx lines 79-83): `int16[i] = inputData[i] * 32768`, where the
store performs ECMAScript `ToInt16`. -/
def frameInt16 (frame : List ℚ) : List ℤ :=
  frame.map (fun x => toInt16 (x * 32768))

/-- Sum of squared samples of a frame (src/App.tsx lines 75-76). -/
def sumSquares (frame : List ℚ) : ℚ :=
  (frame.map (fun x => x * x)).sum

/-- The speech-activity flag of `scriptProcessor.onaudioprocess`
(src/App.tsx line 77): `Math.sqrt(sum / inputData.length) > 0.01`.  Both
sides are non-negative, so the comparison is equivalent to comparing the
squares; we use the squared form to keep the definition executable, and
prove the square-root characterisation as a theorem. -/
def isSpeakingFlag (frame : List ℚ) : Bool :=
  decide ((1 : ℚ) / 10000 < sumSquares frame / frame.length)

/-- `scriptProcessor.onaudioprocess` (src/App.tsx lines 73-92): on every
captured frame, compute the speech-activity flag (stored via
`setIsUserSpeaking`) and the outbound 16-bit PCM payload; both are
produced for every frame, the flag before and independently of the send. -/
def onaudioprocess (frame : List ℚ) : Bool × List ℤ :=
  (isSpeakingFlag frame, frameInt16 frame)

lemma transcriptionStep_activeSources (m : LiveServerMessage) (s : AppState) :
    (transcriptionStep m s).activeSources = s.activeSources := by
  rcases m with ⟨o, i, tc, ad, ir⟩
  cases o <;> cases i <;> rfl

lemma transcriptionStep_stoppedSources (m : LiveServerMessage) (s : AppState) :
    (transcriptionStep m s).stoppedSources = s.stoppedSources := by
  rcases m with ⟨o, i, tc, ad, ir⟩
  cases o <;> cases i <;> rfl

lemma transcriptionStep_inputTrans_of_output (m : LiveServerMessage)
    (s : AppState) (t : String) (ho : m.outputTranscription = some t) :
    (transcriptionStep m s).inputTrans = s.inputTrans ∧
    (transcriptionStep m s).outputTrans = s.outputTrans ++ t := by
  rcases m with ⟨o, i, tc, ad, ir⟩
  cases o with
  | none => cases ho
  | some t₀ =>
    cases ho
    exact ⟨rfl, rfl⟩

lemma turnCompleteStep_activeSources (w : ℕ) (m : LiveServerMessage)
    (s : AppState) :
    (turnCompleteStep w m s).activeSources = s.activeSources := by
  unfold turnCompleteStep
  split
  · dsimp only
    split <;> rfl
  · rfl

lemma turnCompleteStep_stoppedSources (w : ℕ) (m : LiveServerMessage)
    (s : AppState) :
    (turnCompleteStep w m s).stoppedSources = s.stoppedSources := by
  unfold turnCompleteStep
  split
  · dsimp only
    split <;> rfl
  · rfl

lemma turnCompleteStep_inputTrans_of_turn (w : ℕ) (m : LiveServerMessage)
    (s : AppState) (h : m.turnComplete = true) :
    (turnCompleteStep w m s).inputTrans = "" ∧
    (turnCompleteStep w m s).outputTrans = "" := by
  unfold turnCompleteStep
  rw [h]
  constructor <;> simp

lemma audioStep_stoppedSources (n : ℚ) (m : LiveServerMessage)
    (s : AppState) :
    (audioStep n m s).stoppedSources = s.stoppedSources := by
  unfold audioStep
  cases m.audioDuration <;> rfl

lemma audioStep_trans (n : ℚ) (m : LiveServerMessage) (s : AppState) :
    (audioStep n m s).inputTrans = s.inputTrans ∧
    (audioStep n m s).outputTrans = s.outputTrans := by
  unfold audioStep
  cases m.audioDuration <;> exact ⟨rfl, rfl⟩

lemma audioStep_activeSources_mem (n : ℚ) (m : LiveServerMessage)
    (s : AppState) (x : ℚ × ℚ) (hx : x ∈ s.activeSources) :
    x ∈ (audioStep n m s).activeSources := by
  unfold audioStep
  cases m.audioDuration with
  | none => exact hx
  | some d => exact List.mem_append_left _ hx

lemma interruptStep_trans (m : LiveServerMessage) (s : AppState) :
    (interruptStep m s).inputTrans = s.inputTrans ∧
    (interruptStep m s).outputTrans = s.outputTrans := by
  unfold interruptStep
  split <;> exact ⟨rfl, rfl⟩

lemma interruptStep_of_interrupted (m : LiveServerMessage) (s : AppState)
    (h : m.interrupted = true) :
    interruptStep m s =
      { s with
          stoppedSources := s.stoppedSources ++ s.activeSources
          activeSources := []
          nextStartTime := 0
          isGeminiSpeaking := false } := by
  unfold interruptStep
  rw [h]
  rfl

lemma scheduleAll_length (chunks : List (ℚ × ℚ)) :
    ∀ next, (scheduleAll next chunks).length = chunks.length := by
  induction chunks with
  | nil => intro next; rfl
  | cons c rest ih =>
    intro next
    simp [scheduleAll, ih]

lemma backToBack_length (chunks : List (ℚ × ℚ)) :
    ∀ t, (backToBack t chunks).length = chunks.length := by
  induction chunks with
  | nil => intro t; rfl
  | cons c rest ih =>
    intro t
    simp [backToBack, ih]

lemma scheduleAll_start_ge (chunks : List (ℚ × ℚ)) :
    ∀ next, (∀ c ∈ chunks, 0 ≤ c.2) →
      ∀ x ∈ scheduleAll next chunks, next ≤ x.1 := by
  induction chunks with
  | nil => intro next _ x hx; simp [scheduleAll] at hx
  | cons c rest ih =>
    intro next hd x hx
    simp only [scheduleAll, scheduleChunk, List.mem_cons] at hx
    rcases hx with h | h
    · rw [h]
      exact le_max_left _ _
    · have h1 : next ≤ max next c.1 + c.2 := by
        have := hd c (List.mem_cons_self _ _)
        have := le_max_left next c.1
        linarith
      have h2 := ih (max next c.1 + c.2)
        (fun d hdm => hd d (List.mem_cons_of_mem _ hdm)) x h
      linarith

lemma scheduleAll_pairwise (chunks : List (ℚ × ℚ)) :
    ∀ next, (∀ c ∈ chunks, 0 ≤ c.2) →
      List.Pairwise (fun a b : ℚ × ℚ => a.1 + a.2 ≤ b.1)
        (scheduleAll next chunks) := by
  induction chunks with
  | nil => intro next _; simp [scheduleAll]
  | cons c rest ih =>
    intro next hd
    simp only [scheduleAll, scheduleChunk]
    refine List.Pairwise.cons ?_
      (ih (max next c.1 + c.2) (fun d hdm => hd d (List.mem_cons_of_mem _ hdm)))
    intro b hb
    exact scheduleAll_start_ge rest (max next c.1 + c.2)
      (fun d hdm => hd d (List.mem_cons_of_mem _ hdm)) b hb

lemma keepsUp_scheduleAll (chunks : List (ℚ × ℚ)) :
    ∀ next, keepsUp next chunks = true →
      scheduleAll next chunks = backToBack next chunks := by
  induction chunks with
  | nil => intro next _; rfl
  | cons c rest ih =>
    intro next h
    simp only [keepsUp, Bool.and_eq_true, decide_eq_true_eq] at h
    simp only [scheduleAll, scheduleChunk, backToBack, max_eq_left h.1]
    rw [ih (next + c.2) h.2]

lemma backToBack_getD (chunks : List (ℚ × ℚ)) :
    ∀ t k, k < chunks.length →
      ((backToBack t chunks).getD k (0, 0)).1 =
        t + ((chunks.take k).map Prod.snd).sum := by
  induction chunks with
  | nil => intro t k hk; simp at hk
  | cons c rest ih =>
    intro t k hk
    cases k with
    | zero => simp [backToBack]
    | succ k =>
      simp only [backToBack, List.getD_cons_succ]
      rw [ih (t + c.2) k (by simpa using Nat.lt_of_succ_lt_succ hk)]
      simp only [List.take_succ_cons, List.map_cons, List.sum_cons]
      ring

lemma runMessages_cons (w : ℕ) (n : ℚ) (m : LiveServerMessage)
    (ms : List LiveServerMessage) (s : AppState) :
    runMessages w n (m :: ms) s = runMessages w n ms (onmessage w n m s) := rfl

lemma runMessages_append (w : ℕ) (n : ℚ) (a b : List LiveServerMessage)
    (s : AppState) :
    runMessages w n (a ++ b) s = runMessages w n b (runMessages w n a s) :=
  List.foldl_append _ _ _ _

lemma onmessage_msgInputDelta (w : ℕ) (n : ℚ) (t : String) (s : AppState) :
    onmessage w n (msgInputDelta t) s =
      { s with inputTrans := s.inputTrans ++ t } := rfl

lemma onmessage_msgOutputDelta (w : ℕ) (n : ℚ) (t : String) (s : AppState) :
    onmessage w n (msgOutputDelta t) s =
      { s with outputTrans := s.outputTrans ++ t } := rfl

lemma onmessage_msgTurnComplete (w : ℕ) (n : ℚ) (s : AppState) :
    onmessage w n msgTurnComplete s = turnCompleteStep w msgTurnComplete s :=
  rfl

lemma runMessages_deltas (w : ℕ) (n : ℚ) (ds : List (Role × String)) :
    ∀ s : AppState,
      runMessages w n (ds.map deltaMsg) s =
        { s with
            inputTrans := accumRole Role.user ds s.inputTrans
            outputTrans := accumRole Role.gemini ds s.outputTrans } := by
  induction ds with
  | nil => intro s; rfl
  | cons d rest ih =>
    intro s
    rcases d with ⟨r, t⟩
    cases r with
    | user =>
      rw [List.map_cons, deltaMsg, runMessages_cons, onmessage_msgInputDelta,
        ih]
      simp [accumRole]
    | gemini =>
      rw [List.map_cons, deltaMsg, runMessages_cons, onmessage_msgOutputDelta,
        ih]
      simp [accumRole]

lemma stopConversation_fst (s : AppState) :
    (stopConversation s).1 =
      { s with
          session := none
          stream := none
          stoppedSources := s.stoppedSources ++ s.activeSources
          activeSources := []
          status := ConnectionStatus.DISCONNECTED
          isUserSpeaking := false
          isGeminiSpeaking := false } := by
  rcases s with ⟨st, h, g, u, nx, act, stp, ses, str, it, ot⟩
  cases ses <;> cases str <;> rfl

lemma stopConversation_snd_clean (s : AppState) (h1 : s.session = none)
    (h2 : s.stream = none) (h3 : s.activeSources = []) :
    (stopConversation s).2 = [] := by
  rcases s with ⟨st, h, g, u, nx, act, stp, ses, str, it, ot⟩
  simp only at h1 h2 h3
  subst h1
  subst h2
  subst h3
  rfl

lemma truncQ_bounds (q : ℚ) (h1 : -32768 ≤ q) (h2 : q < 32768) :
    -32768 ≤ truncQ q ∧ truncQ q < 32768 := by
  unfold truncQ
  split
  case isTrue h =>
    constructor
    · have h0 : (0 : ℤ) ≤ ⌊q⌋ := Int.floor_nonneg.mpr h
      omega
    · rw [Int.floor_lt]
      exact_mod_cast h2
  case isFalse h =>
    push_neg at h
    constructor
    · have hle : ((⌊-q⌋ : ℤ) : ℚ) ≤ 32768 := le_trans (Int.floor_le _)
        (by linarith)
      have : (⌊-q⌋ : ℤ) ≤ 32768 := by exact_mod_cast hle
      omega
    · have h0 : (0 : ℤ) ≤ ⌊-q⌋ := Int.floor_nonneg.mpr (by linarith)
      omega

lemma toInt16_range (q : ℚ) : -32768 ≤ toInt16 q ∧ toInt16 q ≤ 32767 := by
  unfold toInt16
  dsimp only
  have h1 : 0 ≤ truncQ q % 65536 := Int.emod_nonneg _ (by norm_num)
  have h2 : truncQ q % 65536 < 65536 := Int.emod_lt_of_pos _ (by norm_num)
  split <;> omega

lemma toInt16_eq_truncQ (q : ℚ) (h1 : -32768 ≤ truncQ q)
    (h2 : truncQ q < 32768) : toInt16 q = truncQ q := by
  unfold toInt16
  dsimp only
  split <;> omega

lemma sumSquares_nonneg (frame : List ℚ) : 0 ≤ sumSquares frame := by
  unfold sumSquares
  apply List.sum_nonneg
  intro x hx
  simp only [List.mem_map] at hx
  rcases hx with ⟨y, _, rfl⟩
  exact mul_self_nonneg y

lemma turnCompleteStep_no_turn (w : ℕ) (m : LiveServerMessage) (s : AppState)
    (h : m.turnComplete = false) : turnCompleteStep w m s = s := by
  unfold turnCompleteStep
  rw [h]
  rfl

lemma turnCompleteStep_history_of_turn (w : ℕ) (m : LiveServerMessage)
    (s : AppState) (h : m.turnComplete = true) :
    (turnCompleteStep w m s).history =
      s.history ++
        ((if s.inputTrans ≠ "" then [⟨Role.user, s.inputTrans, w⟩] else []) ++
         (if s.outputTrans ≠ "" then [⟨Role.gemini, s.outputTrans, w⟩]
          else [])) := by
  unfold turnCompleteStep
  rw [h]
  dsimp only
  by_cases hu : s.inputTrans = "" <;> by_cases hg : s.outputTrans = "" <;>
    simp [hu, hg]

/-- C2: after `onmessage` processes any message carrying the `Interrupted`
marker, every source that was active when the event arrived has been
force-stopped, `activeSources` is empty, `nextStartTime` is reset to `0`,
and the "is speaking" signal is `false`, regardless of how many chunks
were queued or playing. -/
theorem C2_interruption_silences (w : ℕ) (n : ℚ) (m : LiveServerMessage)
    (s : AppState) (h : m.interrupted = true) :
    (onmessage w n m s).activeSources = [] ∧
    (onmessage w n m s).nextStartTime = 0 ∧
    (onmessage w n m s).isGeminiSpeaking = false ∧
    ∀ src ∈ s.activeSources, src ∈ (onmessage w n m s).stoppedSources := by
  unfold onmessage
  rw [interruptStep_of_interrupted _ _ h]
  refine ⟨rfl, rfl, rfl, ?_⟩
  intro src hsrc
  refine List.mem_append_right _ ?_
  apply audioStep_activeSources_mem
  rw [turnCompleteStep_activeSources, transcriptionStep_activeSources]
  exact hsrc

/-- Witness for C2 at a concrete interrupted message and a state with one
playing source. -/
theorem C2_interruption_silences_witness :
    msgInterrupted.interrupted = true ∧
    (onmessage 0 3 msgInterrupted
      { initState with activeSources := [(0, 1)], nextStartTime := 1 }).activeSources = [] ∧
    (onmessage 0 3 msgInterrupted
      { initState with activeSources := [(0, 1)], nextStartTime := 1 }).nextStartTime = 0 ∧
    (onmessage 0 3 msgInterrupted
      { initState with activeSources := [(0, 1)], nextStartTime := 1 }).isGeminiSpeaking = false ∧
    ((0 : ℚ), (1 : ℚ)) ∈ (onmessage 0 3 msgInterrupted
      { initState with activeSources := [(0, 1)], nextStartTime := 1 }).stoppedSources := by
  have h := C2_interruption_silences 0 3 msgInterrupted
    { initState with activeSources := [(0, 1)], nextStartTime := 1 } rfl
  exact ⟨rfl, h.1, h.2.1, h.2.2.1, h.2.2.2 (0, 1) (by decide)⟩

/-- C7: a turn-complete message appends exactly the entries of the roles
with non-empty accumulated text (so an all-empty turn appends nothing and
an empty role never produces an entry), and every turn-complete message
resets both accumulators to empty regardless of their contents. -/
theorem C7_empty_turn (w : ℕ) (n : ℚ) (s : AppState) :
    ((onmessage w n msgTurnComplete s).history =
      s.history ++
        ((if s.inputTrans ≠ "" then [⟨Role.user, s.inputTrans, w⟩] else []) ++
         (if s.outputTrans ≠ "" then [⟨Role.gemini, s.outputTrans, w⟩]
          else []))) ∧
    (s.inputTrans = "" → s.outputTrans = "" →
      (onmessage w n msgTurnComplete s).history = s.history) ∧
    (∀ m : LiveServerMessage, m.turnComplete = true →
      (onmessage w n m s).inputTrans = "" ∧
      (onmessage w n m s).outputTrans = "") := by
  refine ⟨?_, ?_, ?_⟩
  · rw [onmessage_msgTurnComplete, turnCompleteStep_history_of_turn _ _ _ rfl]
  · intro hu hg
    rw [onmessage_msgTurnComplete, turnCompleteStep_history_of_turn _ _ _ rfl]
    simp [hu, hg]
  · intro m hm
    unfold onmessage
    have ht := turnCompleteStep_inputTrans_of_turn w m (transcriptionStep m s)
      hm
    have ha := audioStep_trans n m (turnCompleteStep w m
      (transcriptionStep m s))
    have hi := interruptStep_trans m (audioStep n m (turnCompleteStep w m
      (transcriptionStep m s)))
    exact ⟨by rw [hi.1, ha.1, ht.1], by rw [hi.2, ha.2, ht.2]⟩

/-- Witness for C7: an empty turn appends nothing, and a turn-complete
message that also carries a delta still leaves both accumulators empty. -/
theorem C7_empty_turn_witness :
    initState.inputTrans = "" ∧ initState.outputTrans = "" ∧
    (onmessage 5 0 msgTurnComplete initState).history = initState.history ∧
    ((⟨none, some "yo", true, none, false⟩ :
      LiveServerMessage).turnComplete = true) ∧
    (onmessage 5 0 ⟨none, some "yo", true, none, false⟩
      { initState with outputTrans := "x" }).inputTrans = "" ∧
    (onmessage 5 0 ⟨none, some "yo", true, none, false⟩
      { initState with outputTrans := "x" }).outputTrans = "" := by
  have h1 := C7_empty_turn 5 0 initState
  have h2 := C7_empty_turn 5 0 { initState with outputTrans := "x" }
  exact ⟨rfl, rfl, h1.2.1 rfl rfl, rfl, (h2.2.2 _ rfl).1, (h2.2.2 _ rfl).2⟩

/-- C10: when one message carries both an output-transcription delta and an
input-transcription delta, the exclusive if/else-if chain of `onmessage`
appends only the output (model) delta to its accumulator and silently
drops the input (user) delta. -/
theorem C10_output_shadows_input (w : ℕ) (n : ℚ) (m : LiveServerMessage)
    (s : AppState) (t1 t2 : String)
    (ho : m.outputTranscription = some t1)
    (_hi : m.inputTranscription = some t2)
    (ht : m.turnComplete = false) :
    (onmessage w n m s).outputTrans = s.outputTrans ++ t1 ∧
    (onmessage w n m s).inputTrans = s.inputTrans := by
  unfold onmessage
  rw [turnCompleteStep_no_turn w m _ ht]
  have h1 := transcriptionStep_inputTrans_of_output m s t1 ho
  have ha := audioStep_trans n m (transcriptionStep m s)
  have hi2 := interruptStep_trans m (audioStep n m (transcriptionStep m s))
  exact ⟨by rw [hi2.2, ha.2, h1.2], by rw [hi2.1, ha.1, h1.1]⟩

/-- Witness for C10 at a concrete message carrying both deltas. -/
theorem C10_output_shadows_input_witness :
    (onmessage 0 0 (⟨some "out", some "inp", false, none, false⟩ :
      LiveServerMessage) initState).outputTrans = "out" ∧
    (onmessage 0 0 (⟨some "out", some "inp", false, none, false⟩ :
      LiveServerMessage) initState).inputTrans = "" := by
  have h := C10_output_shadows_input 0 0
    ⟨some "out", some "inp", false, none, false⟩ initState "out" "inp"
    rfl rfl rfl
  exact ⟨by simpa using h.1, h.2⟩

/-- C3: for any sequence of single-delta messages followed by a
turn-complete, starting from empty accumulators, deltas of the same role
are concatenated in delivery order, and the turn-complete appends the user
entry (if its accumulated text is non-empty) then the model entry (if its
accumulated text is non-empty), in that fixed order, to the transcript
log; both accumulators end up empty. -/
theorem C3_transcript_ordering (w : ℕ) (n : ℚ) (ds : List (Role × String))
    (s : AppState) (hu : s.inputTrans = "") (hg : s.outputTrans = "") :
    (runMessages w n (ds.map deltaMsg ++ [msgTurnComplete]) s).history =
      s.history ++
        ((if accumRole Role.user ds "" ≠ "" then
            [⟨Role.user, accumRole Role.user ds "", w⟩] else []) ++
         (if accumRole Role.gemini ds "" ≠ "" then
            [⟨Role.gemini, accumRole Role.gemini ds "", w⟩] else [])) ∧
    (runMessages w n (ds.map deltaMsg ++ [msgTurnComplete]) s).inputTrans =
      "" ∧
    (runMessages w n (ds.map deltaMsg ++ [msgTurnComplete]) s).outputTrans =
      "" := by
  rw [runMessages_append, runMessages_deltas, hu, hg]
  rw [show runMessages w n [msgTurnComplete] = onmessage w n msgTurnComplete
    from rfl]
  rw [onmessage_msgTurnComplete]
  refine ⟨?_, ?_, ?_⟩
  · rw [turnCompleteStep_history_of_turn _ _ _ rfl]
  · exact (turnCompleteStep_inputTrans_of_turn w msgTurnComplete _ rfl).1
  · exact (turnCompleteStep_inputTrans_of_turn w msgTurnComplete _ rfl).2

/-- Witness for C3: `user:"Hel"`, `user:"lo"`, `model:"Hi"`, turn-complete
produces exactly `[{user,"Hello"}, {gemini,"Hi"}]`. -/
theorem C3_transcript_ordering_witness :
    initState.inputTrans = "" ∧ initState.outputTrans = "" ∧
    (runMessages 7 0
      ([(Role.user, "Hel"), (Role.user, "lo"), (Role.gemini, "Hi")].map
        deltaMsg ++ [msgTurnComplete]) initState).history =
      [⟨Role.user, "Hello", 7⟩, ⟨Role.gemini, "Hi", 7⟩] := by
  have h := C3_transcript_ordering 7 0
    [(Role.user, "Hel"), (Role.user, "lo"), (Role.gemini, "Hi")] initState
    rfl rfl
  refine ⟨rfl, rfl, ?_⟩
  rw [h.1]
  decide

/-- C8: `stopConversation` is idempotent: a second call leaves the state
unchanged, the status is `DISCONNECTED` after each call, and the second
call performs no release effect at all (no double close of the session, no
double release of the capture stream, no double stop of a source). -/
theorem C8_stop_idempotent (s : AppState) :
    (stopConversation s).1.status = ConnectionStatus.DISCONNECTED ∧
    (stopConversation (stopConversation s).1).1.status =
      ConnectionStatus.DISCONNECTED ∧
    (stopConversation (stopConversation s).1).1 = (stopConversation s).1 ∧
    (stopConversation (stopConversation s).1).2 = [] := by
  refine ⟨?_, ?_, ?_, ?_⟩
  · rw [stopConversation_fst]
  · rw [stopConversation_fst]
  · rw [stopConversation_fst s, stopConversation_fst]
    simp
  · apply stopConversation_snd_clean <;> rw [stopConversation_fst]

/-- C4 counterexample: from a connected state with an open session, the
`onerror` handler leaves the status at `DISCONNECTED`, not `ERROR`,
because `stopConversation` (called after `setStatus(ERROR)`) sets the
status to `DISCONNECTED` last. -/
theorem C4_counterexample :
    (onerror { initState with status := ConnectionStatus.CONNECTED, session := some (), stream := some () }).1.status =
      ConnectionStatus.DISCONNECTED ∧
    ConnectionStatus.DISCONNECTED ≠ ConnectionStatus.ERROR := by
  exact ⟨rfl, by decide⟩

/-- C4 amended: on an inbound `Error` event the handler passes through the
`Error` status and triggers full teardown, but the teardown itself resets
the status, so after the error handler completes the state is
`DISCONNECTED`, not `ERROR`; the teardown does close the session, release
the stream, and force-stop every active source. -/
theorem C4_error_teardown (s : AppState) :
    (onerror s).1.status = ConnectionStatus.DISCONNECTED ∧
    (onerror s).1.session = none ∧
    (onerror s).1.stream = none ∧
    (onerror s).1.activeSources = [] ∧
    ∀ src ∈ s.activeSources, src ∈ (onerror s).1.stoppedSources := by
  unfold onerror
  rw [stopConversation_fst]
  refine ⟨rfl, rfl, rfl, rfl, ?_⟩
  intro src hsrc
  exact List.mem_append_right _ hsrc

/-- Witness for C4 at a state with one active source. -/
theorem C4_error_teardown_witness :
    ((0 : ℚ), (2 : ℚ)) ∈
      (AppState.activeSources { initState with activeSources := [(0, 2)] }) ∧
    ((0 : ℚ), (2 : ℚ)) ∈
      (onerror { initState with activeSources := [(0, 2)] }).1.stoppedSources
    := by
  have h := C4_error_teardown { initState with activeSources := [(0, 2)] }
  exact ⟨by decide, h.2.2.2.2 (0, 2) (by decide)⟩

/-- C5 counterexample: teardown does not reset `nextStartTime` and does
not clear the transcription accumulators — `stopConversation` leaves both
exactly as they were. -/
theorem C5_counterexample :
    (stopConversation { initState with nextStartTime := 5, inputTrans := "ab", outputTrans := "cd", session := some (), stream := some () }).1.nextStartTime = 5 ∧
    (5 : ℚ) ≠ 0 ∧
    (stopConversation { initState with nextStartTime := 5, inputTrans := "ab", outputTrans := "cd", session := some (), stream := some () }).1.inputTrans = "ab" ∧
    "ab" ≠ "" ∧
    (stopConversation { initState with nextStartTime := 5, inputTrans := "ab", outputTrans := "cd", session := some (), stream := some () }).1.outputTrans = "cd" := by
  exact ⟨rfl, by norm_num, rfl, by decide, rfl⟩

/-- C5 amended: teardown closes the transport session, releases the
capture device, force-stops all active playback handles and clears the
set, and emits no partial transcript entry (the history is untouched); but
it leaves `nextStartTime` and both transcription accumulators unchanged
rather than resetting them. -/
theorem C5_teardown (s : AppState) :
    (stopConversation s).1.session = none ∧
    (stopConversation s).1.stream = none ∧
    (stopConversation s).1.activeSources = [] ∧
    (∀ src ∈ s.activeSources, src ∈ (stopConversation s).1.stoppedSources) ∧
    (stopConversation s).1.nextStartTime = s.nextStartTime ∧
    (stopConversation s).1.inputTrans = s.inputTrans ∧
    (stopConversation s).1.outputTrans = s.outputTrans ∧
    (stopConversation s).1.history = s.history := by
  rw [stopConversation_fst]
  exact ⟨rfl, rfl, rfl, fun src h => List.mem_append_right _ h, rfl, rfl,
    rfl, rfl⟩

/-- Witness for C5 at a state with one active source. -/
theorem C5_teardown_witness :
    ((1 : ℚ), (2 : ℚ)) ∈
      (AppState.activeSources { initState with activeSources := [(1, 2)] }) ∧
    ((1 : ℚ), (2 : ℚ)) ∈
      (stopConversation
        { initState with activeSources := [(1, 2)] }).1.stoppedSources := by
  have h := C5_teardown { initState with activeSources := [(1, 2)] }
  exact ⟨by decide, h.2.2.2.1 (1, 2) (by decide)⟩

lemma truncQ_intCast (z : ℤ) : truncQ ((z : ℚ)) = z := by
  unfold truncQ
  split
  · exact Int.floor_intCast z
  · rw [← Int.cast_neg, Int.floor_intCast]
    ring

lemma toInt16_intCast (z : ℤ) :
    toInt16 ((z : ℚ)) =
      if 32768 ≤ z % 65536 then z % 65536 - 65536 else z % 65536 := by
  unfold toInt16
  rw [truncQ_intCast]

lemma frameInt16_single (x : ℚ) (z : ℤ) (h : x * 32768 = (z : ℚ)) :
    frameInt16 [x] =
      [if 32768 ≤ z % 65536 then z % 65536 - 65536 else z % 65536] := by
  simp only [frameInt16, List.map_cons, List.map_nil, h, toInt16_intCast]

lemma frameInt16_three_halves : frameInt16 [3 / 2] = [-16384] := by
  rw [frameInt16_single (3 / 2) 49152 (by norm_num)]
  decide

lemma frameInt16_one : frameInt16 [1] = [-32768] := by
  rw [frameInt16_single 1 32768 (by norm_num)]
  decide

lemma frameInt16_neg_one : frameInt16 [-1] = [-32768] := by
  rw [frameInt16_single (-1) (-32768) (by norm_num)]
  decide

lemma frameInt16_half : frameInt16 [1 / 2] = [16384] := by
  rw [frameInt16_single (1 / 2) 16384 (by norm_num)]
  decide

/-- C6 counterexample: the conversion does not clamp.  An out-of-range
sample of `1.5` yields `-16384` while `1.0` yields `-32768`, so `1.5` does
not produce the same 16-bit result as `1.0`: the `Int16Array` store wraps
modulo 2^16 instead of clamping. -/
theorem C6_counterexample :
    frameInt16 [3 / 2] = [-16384] ∧
    frameInt16 [1] = [-32768] ∧
    frameInt16 [3 / 2] ≠ frameInt16 [1] := by
  refine ⟨frameInt16_three_halves, frameInt16_one, ?_⟩
  rw [frameInt16_three_halves, frameInt16_one]
  decide

/-- C6 amended: each sample is scaled by 32768, truncated toward zero and
reduced modulo 2^16 into a signed 16-bit value (ECMAScript `ToInt16`),
with no clamping: every input (in range or not) produces a value in
`[-32768, 32767]` and never errors; samples in `[-1, 1)` are passed
through unwrapped; `-1.0` yields `-32768` and `0.5` yields `16384`, but
`1.0` wraps to `-32768` and the out-of-range `1.5` wraps to `-16384`. -/
theorem C6_pcm_no_clamp :
    (∀ q : ℚ, -32768 ≤ toInt16 q ∧ toInt16 q ≤ 32767) ∧
    (∀ x : ℚ, -1 ≤ x → x < 1 → toInt16 (x * 32768) = truncQ (x * 32768)) ∧
    frameInt16 [-1] = [-32768] ∧
    frameInt16 [1 / 2] = [16384] ∧
    frameInt16 [3 / 2] = [-16384] ∧
    frameInt16 [1] = [-32768] := by
  refine ⟨toInt16_range, ?_, frameInt16_neg_one, frameInt16_half,
    frameInt16_three_halves, frameInt16_one⟩
  intro x hx1 hx2
  have hb := truncQ_bounds (x * 32768) (by linarith) (by linarith)
  exact toInt16_eq_truncQ _ hb.1 hb.2

/-- Witness for C6 at the in-range sample `-1`. -/
theorem C6_pcm_no_clamp_witness :
    (-1 : ℚ) ≤ -1 ∧ (-1 : ℚ) < 1 ∧
    toInt16 ((-1 : ℚ) * 32768) = truncQ ((-1 : ℚ) * 32768) := by
  exact ⟨by norm_num, by norm_num,
    C6_pcm_no_clamp.2.1 (-1) (by norm_num) (by norm_num)⟩

/-- C9: on every captured frame the handler's speech-activity flag is true
exactly when the root-mean-square energy `Math.sqrt(sum / length)` of the
frame exceeds `0.01`, and the flag is a function of the frame alone,
computed whether or not the frame is sent. -/
theorem C9_speech_flag (frame : List ℚ) :
    (onaudioprocess frame).1 = true ↔
      (1 : ℝ) / 100 <
        Real.sqrt ((sumSquares frame : ℝ) / (frame.length : ℝ)) := by
  rw [Real.lt_sqrt (by norm_num : (0 : ℝ) ≤ 1 / 100)]
  show isSpeakingFlag frame = true ↔ _
  unfold isSpeakingFlag
  rw [decide_eq_true_eq]
  rw [show ((1 : ℝ) / 100) ^ 2 = 1 / 10000 by norm_num]
  constructor
  · intro h
    have h2 : ((1 : ℚ) / 10000 : ℝ) <
        ((sumSquares frame / (frame.length : ℚ) : ℚ) : ℝ) := by
      exact_mod_cast h
    push_cast at h2
    convert h2 using 2
  · intro h
    have h2 : ((1 : ℚ) / 10000 : ℝ) <
        ((sumSquares frame / (frame.length : ℚ) : ℚ) : ℝ) := by
      push_cast
      convert h using 2
    exact_mod_cast h2

lemma onmessage_msgAudio (w : ℕ) (n dur : ℚ) (s : AppState) :
    onmessage w n (msgAudio dur) s =
      { s with
          isGeminiSpeaking := true
          nextStartTime := (scheduleChunk n dur s.nextStartTime).2
          activeSources := s.activeSources ++
            [((scheduleChunk n dur s.nextStartTime).1, dur)] } := rfl

/-- C1 counterexample: the claimed consequence fails for chunks that do
not keep up with the output clock.  With chunks of duration 1 arriving at
output-clock times 0 and 100, the second chunk is scheduled at time 100,
not at the first chunk's start plus the first chunk's duration. -/
theorem C1_counterexample :
    ((scheduleAll 0 [(0, 1), (100, 1)]).getD 1 (0, 0)).1 ≠
      ((scheduleAll 0 [(0, 1), (100, 1)]).getD 0 (0, 0)).1 +
        (([((0 : ℚ), (1 : ℚ)), (100, 1)].take 1).map Prod.snd).sum := by
  norm_num [scheduleAll, scheduleChunk, max_def]

/-- C1 amended: the handler computes `startTime = max(nextStartTime, now)`
and advances `nextStartTime` by the chunk duration, so no two scheduled
`[start, start + duration)` intervals ever overlap (each chunk ends no
later than the next begins); and for a sequence without interruption in
which every chunk after the first arrives no later than the pending
`nextStartTime`, the k-th chunk's start equals the first chunk's start
plus the sum of the durations of chunks `1..k-1`. -/
theorem C1_gapless (next : ℚ) (chunks : List (ℚ × ℚ))
    (hd : ∀ c ∈ chunks, 0 ≤ c.2) :
    List.Pairwise (fun a b : ℚ × ℚ => a.1 + a.2 ≤ b.1)
      (scheduleAll next chunks) ∧
    (keepsUpAfterFirst next chunks = true →
      ∀ k, k < chunks.length →
        ((scheduleAll next chunks).getD k (0, 0)).1 =
          ((scheduleAll next chunks).getD 0 (0, 0)).1 +
            ((chunks.take k).map Prod.snd).sum) := by
  refine ⟨scheduleAll_pairwise chunks next hd, ?_⟩
  intro hkeep k hk
  cases chunks with
  | nil => simp at hk
  | cons c rest =>
    have heq : scheduleAll next (c :: rest) =
        backToBack (max next c.1) (c :: rest) := by
      show (max next c.1, c.2) :: scheduleAll (max next c.1 + c.2) rest =
        (max next c.1, c.2) :: backToBack (max next c.1 + c.2) rest
      rw [keepsUp_scheduleAll rest (max next c.1 + c.2) hkeep]
    rw [heq, backToBack_getD _ _ k hk,
      backToBack_getD _ _ 0 (by simp)]
    simp

/-- Witness for C1: three chunks that keep up with the clock; the third
chunk starts at the first chunk's start plus the first two durations. -/
theorem C1_gapless_witness :
    (∀ c ∈ [((0 : ℚ), (2 : ℚ)), (1, 3), (4, 1)], 0 ≤ c.2) ∧
    keepsUpAfterFirst 0 [((0 : ℚ), (2 : ℚ)), (1, 3), (4, 1)] = true ∧
    ((scheduleAll 0 [((0 : ℚ), (2 : ℚ)), (1, 3), (4, 1)]).getD 2 (0, 0)).1 =
      ((scheduleAll 0 [((0 : ℚ), (2 : ℚ)), (1, 3), (4, 1)]).getD 0
          (0, 0)).1 +
        (([((0 : ℚ), (2 : ℚ)), (1, 3), (4, 1)].take 2).map Prod.snd).sum := by
  refine ⟨by norm_num, by norm_num [keepsUpAfterFirst, keepsUp, max_def], ?_⟩
  exact (C1_gapless 0 [((0 : ℚ), (2 : ℚ)), (1, 3), (4, 1)] (by norm_num)).2
    (by norm_num [keepsUpAfterFirst, keepsUp, max_def]) 2 (by norm_num)
